import Mathlib

/-!
Verification of the ExFatLogger acquisition-and-flush engine
(`src/examples/ExFatLogger/ExFatLogger.ino`).

The development shallowly embeds the record codec (`logRecord`,
`printRecord`'s marker decoding) and the `logData` control loop:
ring-buffer bookkeeping (`fifoCount`/`fifoHead`/`fifoTail`), the
deadline arithmetic on `logTime`, overrun accounting, the bounded
write phase, and the cooperative stop poll.  Machine integers are
modelled as `Nat` with explicit `% 2^w` where the width matters
(uint16 for `overrun`, uint32 for `logTime`, `micros()` deltas as
int32).  The environment (micros readings, analogRead values, SD
busy status, Serial input) is an explicit per-iteration input.
-/

set_option maxRecDepth 8192
set_option maxHeartbeats 1600000

namespace ExFatLogger

/-- Constant `LOG_INTERVAL_USEC` from the source (line 44). -/
def LOG_INTERVAL_USEC : Nat := 2000

/-- Modelled from the spec: `data_t` is declared in `ExFatLogger.h`,
which is not part of the sources here.  Per the spec's data model a
sample record is a fixed-width tuple of `ADC_COUNT` uint16 channel
values, so a record is a list of channel values and
`sizeof(data_t) = 2 * ADC_COUNT` bytes.  The channel count stays a
parameter `adcCount` throughout. -/
def recSize (adcCount : Nat) : Nat := 2 * adcCount

/-- Constant `FIFO_DIM = 512*FIFO_SIZE_SECTORS/sizeof(data_t)` (line 121),
with the sector count kept as a parameter. -/
def FIFO_DIM (sectors adcCount : Nat) : Nat :=
  512 * sectors / recSize adcCount

/-- Constant `MAX_WRITE = 512/sizeof(data_t)` (line 325). -/
def MAX_WRITE (adcCount : Nat) : Nat := 512 / recSize adcCount

/-- Function `logRecord` (lines 76-86).  Here `adc` supplies the `analogRead`
values; `data` is the current contents of the record slot the
function writes into (the C function mutates `*data` in place, so
the result is the new slot contents).  With a nonzero `overrun`
argument the function increments the count ("Add one since this
record has no adc data") and stores the tagged count in the first
channel only; otherwise every channel is filled from the sensor. -/
def logRecord (adc : Nat → Nat) (adcCount : Nat) (data : List Nat)
    (overrun : Nat) : List Nat :=
  if overrun ≠ 0 then
    data.set 0 (0x8000 ||| ((overrun + 1) % 2^16))
  else
    (List.range adcCount).map fun i => adc i % 2^16

/-- The marker test of `printRecord` (line 102):
`data->adc[0] & 0X8000`. -/
def isOverrunMarker (r : List Nat) : Bool := (r.headD 0) &&& 0x8000 != 0

/-- The marker decoding of `printRecord` (line 103):
`uint16_t n = data->adc[0] & 0X7FFF`. -/
def decodeOverrun (r : List Nat) : Nat := (r.headD 0) &&& 0x7FFF

/-! ### The `logData` loop (lines 248-345) as a state machine

One loop iteration is `step`.  The per-iteration environment carries
the values the loop reads from the outside world: `micros()` readings,
`analogRead` values, the SD busy status, the bytes the file write
reports, and `Serial.available()`. -/

/-- The loop-local state of `logData` (lines 249-260).  `lastDelta`
records the jitter value `delta` held at the end of the wait of the
current iteration, and `polls` counts `Serial.available()` polls;
both are observation fields that mirror values the code holds or
actions it performs without storing a counter. -/
structure State where
  logTime : Nat
  lastDelta : Int
  maxDelta : Int
  maxLogMicros : Nat
  maxWriteMicros : Nat
  maxFifoCount : Nat
  fifoCount : Nat
  fifoHead : Nat
  fifoTail : Nat
  overrun : Nat
  maxOverrun : Nat
  totalOverrun : Nat
  fifoData : List (List Nat)
  polls : Nat
deriving DecidableEq

/-- The values one iteration of the loop reads from the hardware. -/
structure Env where
  /-- First `micros()` reading of the iteration (line 281). -/
  micros0 : Nat
  /-- The nonnegative `delta` observed when the busy-wait of lines
  287-289 exits (the loop leaves only once `delta ≥ 0`; any int32
  value in `[0, 2^31)` is realizable by a choice of clock readings). -/
  fireDelta : Nat
  /-- Elapsed micros measured around `logRecord` (lines 292-294). -/
  logMicros : Nat
  /-- The `analogRead` values for this iteration. -/
  adc : Nat → Nat
  /-- Value of `sd.card()->isBusy()` (line 322). -/
  sdBusy : Bool
  /-- Return value of `binFile.write` (line 329). -/
  bytesWritten : Nat
  /-- Elapsed micros measured around the write (lines 328, 332). -/
  writeMicros : Nat
  /-- Value of `Serial.available()` (line 341): the external stop signal. -/
  serialAvailable : Bool

/-- Outcome of one iteration (or of a run of iterations). -/
inductive Outcome where
  /-- The loop continues with the new state. -/
  | running (s : State)
  /-- An `error(msg)` call was hit: the session halts fatally. -/
  | fatal (msg : String)
  /-- The `break` at line 342 fired: the loop exits with this state. -/
  | stopped (s : State)
deriving DecidableEq

/-- int32 reinterpretation of a uint32 value, for
`delta = (int32_t)(micros() - logTime)`. -/
def toInt32 (n : Nat) : Int :=
  if n % 2^32 < 2^31 then ((n % 2^32 : Nat) : Int)
  else ((n % 2^32 : Nat) : Int) - 2^32

/-- The value of `delta` at line 281 of the iteration that starts
from `s`: the uint32 difference `micros() - logTime` (with `logTime`
already advanced by `LOG_INTERVAL_USEC`) reinterpreted as int32. -/
def deadlineDelta (env : Env) (s : State) : Int :=
  toInt32 ((env.micros0 % 2^32 + 2^32 -
    (s.logTime + LOG_INTERVAL_USEC) % 2^32) % 2^32)

/-- Lines 278-289: advance `logTime` by the fixed interval, fail with
"Rate too fast" if the deadline was already missed (`delta > 0`),
otherwise busy-wait until `delta ≥ 0` and record that delta. -/
def tick (env : Env) (s : State) : Except String State :=
  let lt := (s.logTime + LOG_INTERVAL_USEC) % 2^32
  let d0 := deadlineDelta env s
  if 0 < d0 then .error "Rate too fast"
  else .ok { s with
    logTime := lt,
    lastDelta := if d0 = 0 then d0 else ((env.fireDelta % 2^31 : Nat) : Int) }

/-- Lines 291-315: the push phase.  With free capacity, `logRecord`
writes into the slot at `fifoHead`, the head advances circularly, the
count increments, and a pending streak is consumed; on a full buffer
the overrun counters advance and the streak is checked against the
hard ceiling 0xFFF.  (`ERROR_LED_PIN` is -1 in this source, so the
LED branch at lines 312-314 is dead code.) -/
def pushPhase (sectors adcCount : Nat) (env : Env) (s : State) :
    Except String State :=
  if s.fifoCount < FIFO_DIM sectors adcCount then
    let newRec := logRecord env.adc adcCount (s.fifoData.getD s.fifoHead [])
      s.overrun
    let m := env.logMicros % 2^32
    .ok { s with
      fifoData := s.fifoData.set s.fifoHead newRec,
      maxLogMicros := if m > s.maxLogMicros then m else s.maxLogMicros,
      fifoHead := if s.fifoHead < FIFO_DIM sectors adcCount - 1 then
        s.fifoHead + 1 else 0,
      fifoCount := s.fifoCount + 1,
      maxOverrun := if s.overrun ≠ 0 then
        (if s.overrun > s.maxOverrun then s.overrun else s.maxOverrun)
        else s.maxOverrun,
      overrun := if s.overrun ≠ 0 then 0 else s.overrun }
  else
    let ov := (s.overrun + 1) % 2^16
    if ov > 0xFFF then .error "too many overruns"
    else .ok { s with
      totalOverrun := (s.totalOverrun + 1) % 2^32,
      overrun := ov }

/-- The number of records selected for one write (lines 323-326):
the contiguous run from `fifoTail`, capped at `MAX_WRITE`. -/
def nwOf (sectors adcCount : Nat) (s : State) : Nat :=
  let nw := if s.fifoHead > s.fifoTail then s.fifoCount
    else FIFO_DIM sectors adcCount - s.fifoTail
  if nw > MAX_WRITE adcCount then MAX_WRITE adcCount else nw

/-- Lines 322-340 with the writer idle: write `nw` records starting
at `fifoTail`, fail on a short write, advance the tail circularly,
track the occupancy maximum, and pop the written records. -/
def writePhase (sectors adcCount : Nat) (env : Env) (s : State) :
    Except String State :=
  let nw := nwOf sectors adcCount s
  let nb := nw * recSize adcCount
  if env.bytesWritten ≠ nb then .error "write binFile failed"
  else
    let usec := env.writeMicros % 2^32
    .ok { s with
      maxWriteMicros := if usec > s.maxWriteMicros then usec
        else s.maxWriteMicros,
      fifoTail := if s.fifoTail + nw < FIFO_DIM sectors adcCount then
        s.fifoTail + nw else 0,
      maxFifoCount := if s.fifoCount > s.maxFifoCount then s.fifoCount
        else s.maxFifoCount,
      fifoCount := s.fifoCount - nw }

/-- One full iteration of the `while (1)` loop (lines 276-345):
deadline tick, push phase, jitter maximum (lines 318-320), then, when
the SD is not busy, the write phase followed by the stop-signal poll
(lines 341-343). -/
def step (sectors adcCount : Nat) (env : Env) (s : State) : Outcome :=
  match tick env s with
  | .error msg => .fatal msg
  | .ok s₀ =>
    match pushPhase sectors adcCount env s₀ with
    | .error msg => .fatal msg
    | .ok s₁ =>
      let s₂ := { s₁ with
        maxDelta := if s₁.lastDelta > s₁.maxDelta then s₁.lastDelta
          else s₁.maxDelta }
      if env.sdBusy then .running s₂
      else
        match writePhase sectors adcCount env s₂ with
        | .error msg => .fatal msg
        | .ok s₃ =>
          let s₄ := { s₃ with polls := s₃.polls + 1 }
          if env.serialAvailable then .stopped s₄ else .running s₄

/-- Iterate `step` over a list of per-iteration environments.  A
fatal error or a stop ends the run at once. -/
def run (sectors adcCount : Nat) (s : State) : List Env → Outcome
  | [] => .running s
  | e :: es =>
    match step sectors adcCount e s with
    | .running s' => run sectors adcCount s' es
    | o => o

/-- The state at the top of the loop (lines 249-275): all counters
zero, `logTime = micros()`, and the FIFO array holding arbitrary
(uninitialized) records. -/
def initState (micros0 : Nat) (initData : List (List Nat)) : State :=
  { logTime := micros0 % 2^32, lastDelta := 0, maxDelta := 0,
    maxLogMicros := 0, maxWriteMicros := 0, maxFifoCount := 0,
    fifoCount := 0, fifoHead := 0, fifoTail := 0, overrun := 0,
    maxOverrun := 0, totalOverrun := 0, fifoData := initData, polls := 0 }

/-- A state of the `logData` loop is reachable when some environment
sequence leads the loop from its initial state to it.  The FIFO array
physically holds `FIFO_DIM` records of `adcCount` channels each. -/
def Reachable (sectors adcCount : Nat) (s : State) : Prop :=
  ∃ micros0 initData envs,
    initData.length = FIFO_DIM sectors adcCount ∧
    (∀ r ∈ initData, r.length = adcCount) ∧
    run sectors adcCount (initState micros0 initData) envs = .running s

/-- The records currently buffered, in pop order: the `fifoCount`
slots starting at `fifoTail` and wrapping at `FIFO_DIM`. -/
def bufferContents (sectors adcCount : Nat) (s : State) : List (List Nat) :=
  (List.range s.fifoCount).map fun i =>
    s.fifoData.getD ((s.fifoTail + i) % FIFO_DIM sectors adcCount) []

/-- The ring-buffer bookkeeping invariant of the loop, strengthened
with the head/tail/count relation that makes it inductive, the
physical array length, and the overrun ceiling. -/
def Inv (sectors adcCount : Nat) (s : State) : Prop :=
  s.fifoCount ≤ FIFO_DIM sectors adcCount ∧
  s.fifoHead < FIFO_DIM sectors adcCount ∧
  s.fifoTail < FIFO_DIM sectors adcCount ∧
  s.fifoHead = (s.fifoTail + s.fifoCount) % FIFO_DIM sectors adcCount ∧
  s.fifoData.length = FIFO_DIM sectors adcCount ∧
  s.overrun ≤ 0xFFF

/-- Whether an iteration outcome is the cooperative stop exit. -/
def isStopped : Outcome → Bool
  | .stopped _ => true
  | _ => false

/-- The stop-signal poll counter of a non-fatal outcome. -/
def outPolls : Outcome → Option Nat
  | .running s => some s.polls
  | .stopped s => some s.polls
  | .fatal _ => none

/-- The recorded jitter of a non-fatal outcome. -/
def outLastDelta : Outcome → Option Int
  | .running s => some s.lastDelta
  | .stopped s => some s.lastDelta
  | .fatal _ => none

/-! ### Concrete instances (sectors = 1, adcCount = 4, so
`FIFO_DIM = 64` and `MAX_WRITE = 64`) used to exercise the theorems
on closed inputs. -/

/-- A 64-record FIFO array of four zeroed channels. -/
def fifoZero : List (List Nat) := List.replicate 64 (List.replicate 4 0)

/-- The loop state at the top of the first iteration. -/
def state0 : State := initState 0 fifoZero

/-- A full buffer with no pending streak. -/
def stateFull : State := { state0 with fifoCount := 64 }

/-- A full buffer with the pending streak at the hard ceiling. -/
def stateSat : State := { state0 with fifoCount := 64, overrun := 0xFFF }

/-- An environment meeting the deadline exactly, SD busy, stop signal
set. -/
def envBusyStop : Env :=
  { micros0 := 2000, fireDelta := 0, logMicros := 0, adc := fun _ => 0,
    sdBusy := true, bytesWritten := 0, writeMicros := 0,
    serialAvailable := true }

/-- Like `envBusyStop` but with the stop signal clear. -/
def envBusy1 : Env := { envBusyStop with serialAvailable := false }

/-- Second-iteration variant of `envBusy1` (clock at 4000). -/
def envBusy2 : Env := { envBusy1 with micros0 := 4000 }

/-- An idle-writer environment reporting a complete one-record
write. -/
def envIdle : Env := { envBusy1 with sdBusy := false, bytesWritten := 8 }

/-- State `state0` after one push of a zero record. -/
def stateP1 : State := { state0 with fifoCount := 1, fifoHead := 1 }

/-- State `stateP1` after its one record is written out. -/
def stateW1 : State :=
  { stateP1 with fifoTail := 1, fifoCount := 0, maxFifoCount := 1 }

/-- State `state0` after two deadline-met, SD-busy iterations. -/
def stateT2 : State :=
  { state0 with logTime := 4000, fifoCount := 2, fifoHead := 2 }

/-! ## Theorems -/

/-! ### Bitwise helper lemmas for the codec -/

theorem lor_tag_and_mask {x : Nat} (hx : x < 2^15) :
    (0x8000 ||| x) &&& 0x7FFF = x := by
  have h15 : (0x8000 : Nat) = 2^15 := by norm_num
  have h7 : (0x7FFF : Nat) = 2^15 - 1 := by norm_num
  rw [h15, h7, Nat.and_distrib_right]
  have h1 : 2^15 &&& 2^15 - 1 = 0 := by decide
  have h2 : x &&& 2^15 - 1 = x := Nat.and_pow_two_sub_one_of_lt_two_pow hx
  rw [h1, h2, Nat.zero_or]

theorem lor_tag_test (x : Nat) : ((0x8000 ||| x) &&& 0x8000) ≠ 0 := by
  have hbit : Nat.testBit ((0x8000 ||| x) &&& 0x8000) 15 = true := by
    rw [Nat.testBit_and, Nat.testBit_or]
    have htag : Nat.testBit 0x8000 15 = true := by decide
    rw [htag, Bool.true_or, Bool.and_true]
  intro h0
  rw [h0] at hbit
  simp [Nat.zero_testBit] at hbit

/-- Shared helper: decoding a marker produced by `logRecord` from a
nonzero count `c` with `c + 1` in the 15-bit range yields `c + 1`. -/
theorem decode_logRecord_marker (f : Nat → Nat) (n : Nat) (data : List Nat)
    (c : Nat) (hc : c ≠ 0) (hrep : c + 1 ≤ 0x7FFF) (hd : data ≠ []) :
    decodeOverrun (logRecord f n data c) = c + 1 := by
  unfold logRecord decodeOverrun
  rw [if_pos hc]
  have hlt : c + 1 < 2^16 := by omega
  rw [Nat.mod_eq_of_lt hlt]
  have hhead : (data.set 0 (0x8000 ||| (c + 1))).headD 0
      = 0x8000 ||| (c + 1) := by
    cases data with
    | nil => exact absurd rfl hd
    | cons a l => rfl
  rw [hhead]
  exact lor_tag_and_mask (by omega)

/-! ### C1: encode/decode round trip -/

/-- C1 counterexample: encoding streak count 1 with `logRecord` and
decoding it as `printRecord` does yields 2, not the original count 1.
The claim that the round trip recovers the original count is false. -/
theorem overrun_roundtrip_cex :
    decodeOverrun (logRecord (fun _ => 0) 4 [0, 0, 0, 0] 1) ≠ 1 := by
  decide

/-- C1 (amended): for every nonzero streak count `c` whose successor
is representable in the 15 low bits, encoding with `logRecord` and
decoding the low 15 bits of the first channel as `printRecord` does
yields `c + 1`: the original count plus one for the marker's own
consumed sample slot. -/
theorem overrun_roundtrip (f : Nat → Nat) (n : Nat) (data : List Nat)
    (c : Nat) (hc : c ≠ 0) (hrep : c + 1 ≤ 0x7FFF) (hd : data ≠ []) :
    decodeOverrun (logRecord f n data c) = c + 1 :=
  decode_logRecord_marker f n data c hc hrep hd

/-- C1 witness: the amended round trip at count 5. -/
theorem overrun_roundtrip_witness :
    decodeOverrun (logRecord (fun _ => 0) 4 [0, 0, 0, 0] 5) = 5 + 1 :=
  overrun_roundtrip (fun _ => 0) 4 [0, 0, 0, 0] 5 (by decide) (by decide)
    (by decide)

/-! ### C6: marker contents -/

/-- C6 counterexample: two marker records produced from the same
streak count (1) but different prior slot contents differ in channel
slot 1, which retains the stale prior value (7 versus 9).  So the
marker's channel slots are not determined solely by the streak count
and the tag bit. -/
theorem marker_stale_data_cex :
    logRecord (fun _ => 0) 4 [5, 7, 11, 13] 1 = [0x8002, 7, 11, 13] ∧
    logRecord (fun _ => 0) 4 [5, 9, 11, 13] 1 = [0x8002, 9, 11, 13] := by
  decide

/-- C6 (amended): a marker record writes only the first channel slot
(tag bit ORed with the incremented count); the remaining slots retain
the previous contents of the reused buffer slot, and the marker is
independent of the current sensor readings (any two read functions
give the same marker). -/
theorem marker_writes_only_first_slot (f g : Nat → Nat) (n : Nat)
    (data : List Nat) (ov : Nat) (hov : ov ≠ 0) (hd : data ≠ []) :
    (logRecord f n data ov).drop 1 = data.drop 1 ∧
    (logRecord f n data ov).headD 0 = 0x8000 ||| ((ov + 1) % 2^16) ∧
    logRecord f n data ov = logRecord g n data ov := by
  unfold logRecord
  rw [if_pos hov, if_pos hov]
  refine ⟨?_, ?_, rfl⟩
  · cases data with
    | nil => rfl
    | cons a l => rfl
  · cases data with
    | nil => exact absurd rfl hd
    | cons a l => rfl

/-- C6 witness: the amended statement at a concrete marker. -/
theorem marker_writes_only_first_slot_witness :
    (logRecord (fun _ => 0) 4 [5, 7, 11, 13] 3).drop 1 = [5, 7, 11, 13].drop 1 ∧
    (logRecord (fun _ => 0) 4 [5, 7, 11, 13] 3).headD 0
      = 0x8000 ||| ((3 + 1) % 2^16) ∧
    logRecord (fun _ => 0) 4 [5, 7, 11, 13] 3
      = logRecord (fun _ => 1) 4 [5, 7, 11, 13] 3 :=
  marker_writes_only_first_slot (fun _ => 0) (fun _ => 1) 4 [5, 7, 11, 13] 3
    (by decide) (by decide)

/-! ### C10: markers below the tag bit -/

/-- C10: for every streak count the loop can actually encode (nonzero
and at most the operational ceiling 0xFFF enforced at line 309), the
encoded count `ov + 1` is at most 0x1000 and never reaches the tag
bit 0x8000, the marker's first field passes the marker test of
`printRecord` line 102, and the decoded low 15 bits equal the encoded
count. -/
theorem marker_below_tag_bit (f : Nat → Nat) (n : Nat) (data : List Nat)
    (ov : Nat) (hov : ov ≠ 0) (hceil : ov ≤ 0xFFF) (hd : data ≠ []) :
    ov + 1 ≤ 0x1000 ∧ ov + 1 < 0x8000 ∧
    isOverrunMarker (logRecord f n data ov) = true ∧
    decodeOverrun (logRecord f n data ov) = ov + 1 := by
  refine ⟨by omega, by omega, ?_, ?_⟩
  · unfold logRecord isOverrunMarker
    rw [if_pos hov]
    have hhead : (data.set 0 (0x8000 ||| ((ov + 1) % 2^16))).headD 0
        = 0x8000 ||| ((ov + 1) % 2^16) := by
      cases data with
      | nil => exact absurd rfl hd
      | cons a l => rfl
    rw [hhead]
    simpa using lor_tag_test ((ov + 1) % 2^16)
  · exact decode_logRecord_marker f n data ov hov (by omega) hd

/-- C10 witness: the marker properties at streak count 5. -/
theorem marker_below_tag_bit_witness :
    5 + 1 ≤ 0x1000 ∧ 5 + 1 < 0x8000 ∧
    isOverrunMarker (logRecord (fun _ => 2) 4 [1, 2, 3, 4] 5) = true ∧
    decodeOverrun (logRecord (fun _ => 2) 4 [1, 2, 3, 4] 5) = 5 + 1 :=
  marker_below_tag_bit (fun _ => 2) 4 [1, 2, 3, 4] 5 (by decide) (by decide)
    (by decide)

theorem run_nil (sectors adcCount : Nat) (s : State) :
    run sectors adcCount s [] = .running s := rfl

theorem run_cons (sectors adcCount : Nat) (s : State) (e : Env)
    (es : List Env) :
    run sectors adcCount s (e :: es)
      = match step sectors adcCount e s with
        | .running s' => run sectors adcCount s' es
        | o => o := rfl

theorem inv_init (sectors adcCount : Nat) (micros0 : Nat)
    (initData : List (List Nat))
    (hD : 0 < FIFO_DIM sectors adcCount)
    (hlen : initData.length = FIFO_DIM sectors adcCount) :
    Inv sectors adcCount (initState micros0 initData) := by
  unfold Inv initState
  refine ⟨Nat.zero_le _, hD, hD, by simp, hlen, Nat.zero_le _⟩

/-- Characterization of a successful deadline tick: the deadline was
not already missed, `logTime` advanced by the fixed interval, and the
recorded jitter is the nonnegative wait exit value. -/
theorem tick_ok (env : Env) (s s' : State) (h : tick env s = .ok s') :
    s' = { s with
      logTime := (s.logTime + LOG_INTERVAL_USEC) % 2^32,
      lastDelta := if deadlineDelta env s = 0 then deadlineDelta env s
        else ((env.fireDelta % 2^31 : Nat) : Int) } ∧
    deadlineDelta env s ≤ 0 := by
  unfold tick at h
  dsimp only at h
  by_cases h0 : 0 < deadlineDelta env s
  · rw [if_pos h0] at h
    exact absurd h (by simp)
  · rw [if_neg h0] at h
    simp only [Except.ok.injEq] at h
    exact ⟨h.symm, by omega⟩

/-- A missed deadline makes the tick fail with the "Rate too fast"
diagnostic. -/
theorem tick_of_miss (env : Env) (s : State)
    (h0 : 0 < deadlineDelta env s) :
    tick env s = .error "Rate too fast" := by
  unfold tick
  dsimp only
  rw [if_pos h0]

theorem inv_tick (sectors adcCount : Nat) (env : Env) (s s' : State)
    (hInv : Inv sectors adcCount s) (h : tick env s = .ok s') :
    Inv sectors adcCount s' := by
  obtain ⟨hs, -⟩ := tick_ok env s s' h
  subst hs
  exact hInv

/-- The key geometry fact: from the invariant with a nonempty buffer,
the write run `nwOf` fits in the remaining records and never passes
the physical end of the array. -/
theorem nw_le (sectors adcCount : Nat) (s : State)
    (hc : s.fifoCount ≤ FIFO_DIM sectors adcCount)
    (hh : s.fifoHead < FIFO_DIM sectors adcCount)
    (ht : s.fifoTail < FIFO_DIM sectors adcCount)
    (hrel : s.fifoHead = (s.fifoTail + s.fifoCount) % FIFO_DIM sectors adcCount)
    (hcnt : 1 ≤ s.fifoCount) :
    nwOf sectors adcCount s ≤ s.fifoCount ∧
    s.fifoTail + nwOf sectors adcCount s ≤ FIFO_DIM sectors adcCount := by
  have hmod : s.fifoHead = s.fifoTail + s.fifoCount ∨
      (s.fifoHead + FIFO_DIM sectors adcCount = s.fifoTail + s.fifoCount ∧
        FIFO_DIM sectors adcCount ≤ s.fifoTail + s.fifoCount) := by
    rcases Nat.lt_or_ge (s.fifoTail + s.fifoCount) (FIFO_DIM sectors adcCount)
      with hlt | hge
    · left; rw [hrel, Nat.mod_eq_of_lt hlt]
    · right
      refine ⟨?_, hge⟩
      have hsub : (s.fifoTail + s.fifoCount) % FIFO_DIM sectors adcCount
          = s.fifoTail + s.fifoCount - FIFO_DIM sectors adcCount := by
        rw [Nat.mod_eq_sub_mod hge, Nat.mod_eq_of_lt (by omega)]
      rw [hrel, hsub]; omega
  have hn0 : (if s.fifoHead > s.fifoTail then s.fifoCount
        else FIFO_DIM sectors adcCount - s.fifoTail) ≤ s.fifoCount ∧
      s.fifoTail + (if s.fifoHead > s.fifoTail then s.fifoCount
        else FIFO_DIM sectors adcCount - s.fifoTail)
        ≤ FIFO_DIM sectors adcCount := by
    by_cases hht : s.fifoHead > s.fifoTail
    · rw [if_pos hht]
      rcases hmod with hm | ⟨hm, hge⟩ <;> omega
    · rw [if_neg hht]
      rcases hmod with hm | ⟨hm, hge⟩ <;> omega
  unfold nwOf
  by_cases hcap : (if s.fifoHead > s.fifoTail then s.fifoCount
      else FIFO_DIM sectors adcCount - s.fifoTail) > MAX_WRITE adcCount
  · simp only [if_pos hcap]; omega
  · simp only [if_neg hcap]; exact hn0

theorem inv_write (sectors adcCount : Nat) (env : Env) (s s' : State)
    (hInv : Inv sectors adcCount s) (hcnt : 1 ≤ s.fifoCount)
    (hw : writePhase sectors adcCount env s = .ok s') :
    Inv sectors adcCount s' := by
  obtain ⟨hc, hh, ht, hrel, hlen, hov⟩ := hInv
  obtain ⟨hnw, htail⟩ := nw_le sectors adcCount s hc hh ht hrel hcnt
  unfold writePhase at hw
  dsimp only at hw
  by_cases hb : env.bytesWritten ≠ nwOf sectors adcCount s * recSize adcCount
  · rw [if_pos hb] at hw
    exact absurd hw (by simp)
  · rw [if_neg hb] at hw
    simp only [Except.ok.injEq] at hw
    subst hw
    unfold Inv
    dsimp only
    refine ⟨by omega, hh, ?_, ?_, hlen, hov⟩
    · split <;> omega
    · have htl : (if s.fifoTail + nwOf sectors adcCount s <
            FIFO_DIM sectors adcCount then s.fifoTail + nwOf sectors adcCount s
            else 0)
          = (s.fifoTail + nwOf sectors adcCount s) %
              FIFO_DIM sectors adcCount := by
        split
        · rw [Nat.mod_eq_of_lt (by omega)]
        · have heq : s.fifoTail + nwOf sectors adcCount s
              = FIFO_DIM sectors adcCount := by omega
          rw [heq, Nat.mod_self]
      rw [htl, Nat.mod_add_mod, hrel]
      congr 1
      omega

theorem inv_push (sectors adcCount : Nat) (env : Env) (s s' : State)
    (hInv : Inv sectors adcCount s)
    (hp : pushPhase sectors adcCount env s = .ok s') :
    Inv sectors adcCount s' ∧ 1 ≤ s'.fifoCount := by
  obtain ⟨hc, hh, ht, hrel, hlen, hov⟩ := hInv
  unfold pushPhase at hp
  dsimp only at hp
  by_cases hlt : s.fifoCount < FIFO_DIM sectors adcCount
  · rw [if_pos hlt] at hp
    simp only [Except.ok.injEq] at hp
    subst hp
    unfold Inv
    dsimp only
    refine ⟨⟨by omega, ?_, ht, ?_, by simpa using hlen, ?_⟩, by omega⟩
    · split <;> omega
    · have hhd : (if s.fifoHead < FIFO_DIM sectors adcCount - 1 then
            s.fifoHead + 1 else 0)
          = (s.fifoHead + 1) % FIFO_DIM sectors adcCount := by
        split
        · rw [Nat.mod_eq_of_lt (by omega)]
        · have heq : s.fifoHead + 1 = FIFO_DIM sectors adcCount := by omega
          rw [heq, Nat.mod_self]
      rw [hhd, hrel, Nat.mod_add_mod]
      congr 1
    · split <;> omega
  · rw [if_neg hlt] at hp
    by_cases hceil : (s.overrun + 1) % 2^16 > 0xFFF
    · rw [if_pos hceil] at hp
      exact absurd hp (by simp)
    · rw [if_neg hceil] at hp
      simp only [Except.ok.injEq] at hp
      subst hp
      unfold Inv
      dsimp only
      exact ⟨⟨hc, hh, ht, hrel, hlen, by omega⟩, by omega⟩

theorem inv_step (sectors adcCount : Nat) (env : Env) (s s' : State)
    (hInv : Inv sectors adcCount s)
    (h : step sectors adcCount env s = .running s' ∨
      step sectors adcCount env s = .stopped s') :
    Inv sectors adcCount s' := by
  unfold step at h
  cases htick : tick env s with
  | error msg =>
    rw [htick] at h
    dsimp only at h
    rcases h with h | h <;> exact absurd h (by simp)
  | ok s₀ =>
    rw [htick] at h
    dsimp only at h
    have hInv₀ : Inv sectors adcCount s₀ :=
      inv_tick sectors adcCount env s s₀ hInv htick
    cases hpush : pushPhase sectors adcCount env s₀ with
    | error msg =>
      rw [hpush] at h
      dsimp only at h
      rcases h with h | h <;> exact absurd h (by simp)
    | ok s₁ =>
      rw [hpush] at h
      dsimp only at h
      obtain ⟨hInv₁, hcnt₁⟩ := inv_push sectors adcCount env s₀ s₁ hInv₀ hpush
      have hInv₂ : Inv sectors adcCount
          { s₁ with maxDelta := if s₁.lastDelta > s₁.maxDelta then
            s₁.lastDelta else s₁.maxDelta } := hInv₁
      by_cases hbusy : env.sdBusy
      · rw [if_pos hbusy] at h
        rcases h with h | h
        · cases h
          exact hInv₂
        · exact absurd h (by simp)
      · rw [if_neg hbusy] at h
        cases hwrite : writePhase sectors adcCount env
            { s₁ with maxDelta := if s₁.lastDelta > s₁.maxDelta then
              s₁.lastDelta else s₁.maxDelta } with
        | error msg =>
          rw [hwrite] at h
          dsimp only at h
          rcases h with h | h <;> exact absurd h (by simp)
        | ok s₃ =>
          rw [hwrite] at h
          dsimp only at h
          have hInv₃ : Inv sectors adcCount s₃ :=
            inv_write sectors adcCount env _ s₃ hInv₂ hcnt₁ hwrite
          have hInv₄ : Inv sectors adcCount { s₃ with polls := s₃.polls + 1 } :=
            hInv₃
          by_cases hser : env.serialAvailable
          · rw [if_pos hser] at h
            rcases h with h | h
            · exact absurd h (by simp)
            · cases h
              exact hInv₄
          · rw [if_neg hser] at h
            rcases h with h | h
            · cases h
              exact hInv₄
            · exact absurd h (by simp)

theorem inv_run (sectors adcCount : Nat) (s s' : State) (envs : List Env)
    (hInv : Inv sectors adcCount s)
    (h : run sectors adcCount s envs = .running s') :
    Inv sectors adcCount s' := by
  induction envs generalizing s with
  | nil =>
    rw [run_nil] at h
    cases h
    exact hInv
  | cons e es ih =>
    rw [run_cons] at h
    cases hstep : step sectors adcCount e s with
    | running s₁ =>
      rw [hstep] at h
      dsimp only at h
      exact ih s₁ (inv_step sectors adcCount e s s₁ hInv (Or.inl hstep)) h
    | fatal msg =>
      rw [hstep] at h
      dsimp only at h
      exact absurd h (by simp)
    | stopped s₁ =>
      rw [hstep] at h
      dsimp only at h
      exact absurd h (by simp)

theorem inv_reachable (sectors adcCount : Nat) (s : State)
    (hD : 0 < FIFO_DIM sectors adcCount)
    (hs : Reachable sectors adcCount s) :
    Inv sectors adcCount s := by
  obtain ⟨micros0, initData, envs, hlen, _, hrun⟩ := hs
  exact inv_run sectors adcCount _ s envs
    (inv_init sectors adcCount micros0 initData hD hlen) hrun

/-- A deadline that is not already missed ticks successfully. -/
theorem tick_of_le (env : Env) (s : State)
    (h0 : deadlineDelta env s ≤ 0) :
    tick env s = .ok { s with
      logTime := (s.logTime + LOG_INTERVAL_USEC) % 2^32,
      lastDelta := if deadlineDelta env s = 0 then deadlineDelta env s
        else ((env.fireDelta % 2^31 : Nat) : Int) } := by
  unfold tick
  dsimp only
  rw [if_neg (by omega)]

theorem step_of_tick_error (sectors adcCount : Nat) (env : Env) (s : State)
    (msg : String) (htick : tick env s = .error msg) :
    step sectors adcCount env s = .fatal msg := by
  unfold step
  rw [htick]

theorem step_of_push_error (sectors adcCount : Nat) (env : Env)
    (s s₀ : State) (msg : String) (htick : tick env s = .ok s₀)
    (hpush : pushPhase sectors adcCount env s₀ = .error msg) :
    step sectors adcCount env s = .fatal msg := by
  unfold step
  rw [htick]
  dsimp only
  rw [hpush]

theorem step_busy (sectors adcCount : Nat) (env : Env) (s s₀ s₁ : State)
    (htick : tick env s = .ok s₀)
    (hpush : pushPhase sectors adcCount env s₀ = .ok s₁)
    (hbusy : env.sdBusy = true) :
    step sectors adcCount env s = .running { s₁ with
      maxDelta := if s₁.lastDelta > s₁.maxDelta then s₁.lastDelta
        else s₁.maxDelta } := by
  unfold step
  rw [htick]
  dsimp only
  rw [hpush]
  dsimp only
  rw [if_pos hbusy]

theorem step_of_write_error (sectors adcCount : Nat) (env : Env)
    (s s₀ s₁ : State) (msg : String) (htick : tick env s = .ok s₀)
    (hpush : pushPhase sectors adcCount env s₀ = .ok s₁)
    (hbusy : env.sdBusy = false)
    (hwrite : writePhase sectors adcCount env { s₁ with
      maxDelta := if s₁.lastDelta > s₁.maxDelta then s₁.lastDelta
        else s₁.maxDelta } = .error msg) :
    step sectors adcCount env s = .fatal msg := by
  unfold step
  rw [htick]
  dsimp only
  rw [hpush]
  dsimp only
  rw [if_neg (by simp [hbusy]), hwrite]

theorem step_idle (sectors adcCount : Nat) (env : Env) (s s₀ s₁ s₃ : State)
    (htick : tick env s = .ok s₀)
    (hpush : pushPhase sectors adcCount env s₀ = .ok s₁)
    (hbusy : env.sdBusy = false)
    (hwrite : writePhase sectors adcCount env { s₁ with
      maxDelta := if s₁.lastDelta > s₁.maxDelta then s₁.lastDelta
        else s₁.maxDelta } = .ok s₃) :
    step sectors adcCount env s =
      if env.serialAvailable then .stopped { s₃ with polls := s₃.polls + 1 }
      else .running { s₃ with polls := s₃.polls + 1 } := by
  unfold step
  rw [htick]
  dsimp only
  rw [hpush]
  dsimp only
  rw [if_neg (by simp [hbusy]), hwrite]

/-- The push phase on a full buffer: either the saturation error or
exactly the overrun-counter updates. -/
theorem pushPhase_full (sectors adcCount : Nat) (env : Env) (s : State)
    (hfull : s.fifoCount = FIFO_DIM sectors adcCount) :
    pushPhase sectors adcCount env s =
      if (s.overrun + 1) % 2^16 > 0xFFF then .error "too many overruns"
      else .ok { s with
        totalOverrun := (s.totalOverrun + 1) % 2^32,
        overrun := (s.overrun + 1) % 2^16 } := by
  unfold pushPhase
  dsimp only
  rw [if_neg (by omega)]

theorem pushPhase_preserves (sectors adcCount : Nat) (env : Env)
    (s s' : State) (hp : pushPhase sectors adcCount env s = .ok s') :
    s'.polls = s.polls ∧ s'.logTime = s.logTime ∧
    s'.lastDelta = s.lastDelta := by
  unfold pushPhase at hp
  dsimp only at hp
  by_cases hlt : s.fifoCount < FIFO_DIM sectors adcCount
  · rw [if_pos hlt] at hp
    simp only [Except.ok.injEq] at hp
    subst hp
    exact ⟨rfl, rfl, rfl⟩
  · rw [if_neg hlt] at hp
    by_cases hceil : (s.overrun + 1) % 2^16 > 0xFFF
    · rw [if_pos hceil] at hp
      exact absurd hp (by simp)
    · rw [if_neg hceil] at hp
      simp only [Except.ok.injEq] at hp
      subst hp
      exact ⟨rfl, rfl, rfl⟩

theorem writePhase_preserves (sectors adcCount : Nat) (env : Env)
    (s s' : State) (hw : writePhase sectors adcCount env s = .ok s') :
    s'.polls = s.polls ∧ s'.logTime = s.logTime ∧
    s'.lastDelta = s.lastDelta ∧
    s'.fifoCount = s.fifoCount - nwOf sectors adcCount s := by
  unfold writePhase at hw
  dsimp only at hw
  by_cases hb : env.bytesWritten ≠ nwOf sectors adcCount s * recSize adcCount
  · rw [if_pos hb] at hw
    exact absurd hw (by simp)
  · rw [if_neg hb] at hw
    simp only [Except.ok.injEq] at hw
    subst hw
    exact ⟨rfl, rfl, rfl, rfl⟩

/-- Any continuing iteration advances `logTime` by exactly one fixed
interval, whatever the environment did. -/
theorem step_logTime (sectors adcCount : Nat) (env : Env) (s s' : State)
    (h : step sectors adcCount env s = .running s' ∨
      step sectors adcCount env s = .stopped s') :
    s'.logTime = (s.logTime + LOG_INTERVAL_USEC) % 2^32 := by
  cases htick : tick env s with
  | error msg =>
    rw [step_of_tick_error sectors adcCount env s msg htick] at h
    rcases h with h | h <;> exact absurd h (by simp)
  | ok s₀ =>
    obtain ⟨hs₀, -⟩ := tick_ok env s s₀ htick
    have hlt₀ : s₀.logTime = (s.logTime + LOG_INTERVAL_USEC) % 2^32 := by
      rw [hs₀]
    cases hpush : pushPhase sectors adcCount env s₀ with
    | error msg =>
      rw [step_of_push_error sectors adcCount env s s₀ msg htick hpush] at h
      rcases h with h | h <;> exact absurd h (by simp)
    | ok s₁ =>
      obtain ⟨-, hlt₁, -⟩ := pushPhase_preserves sectors adcCount env s₀ s₁
        hpush
      by_cases hbusy : env.sdBusy
      · rw [step_busy sectors adcCount env s s₀ s₁ htick hpush hbusy] at h
        rcases h with h | h
        · cases h
          rw [hlt₁, hlt₀]
        · exact absurd h (by simp)
      · rw [Bool.not_eq_true] at hbusy
        cases hwrite : writePhase sectors adcCount env { s₁ with
            maxDelta := if s₁.lastDelta > s₁.maxDelta then s₁.lastDelta
              else s₁.maxDelta } with
        | error msg =>
          rw [step_of_write_error sectors adcCount env s s₀ s₁ msg htick
            hpush hbusy hwrite] at h
          rcases h with h | h <;> exact absurd h (by simp)
        | ok s₃ =>
          obtain ⟨-, hlt₃, -, -⟩ := writePhase_preserves sectors adcCount env
            _ s₃ hwrite
          rw [step_idle sectors adcCount env s s₀ s₁ s₃ htick hpush hbusy
            hwrite] at h
          by_cases hser : env.serialAvailable
          · rw [if_pos hser] at h
            rcases h with h | h
            · exact absurd h (by simp)
            · cases h
              rw [hlt₃, hlt₁, hlt₀]
          · rw [if_neg hser] at h
            rcases h with h | h
            · cases h
              rw [hlt₃, hlt₁, hlt₀]
            · exact absurd h (by simp)

theorem run_logTime (sectors adcCount : Nat) (s s' : State)
    (envs : List Env) (hlt : s.logTime < 2^32)
    (h : run sectors adcCount s envs = .running s') :
    s'.logTime = (s.logTime + envs.length * LOG_INTERVAL_USEC) % 2^32 := by
  induction envs generalizing s with
  | nil =>
    rw [run_nil] at h
    cases h
    simpa using (Nat.mod_eq_of_lt hlt).symm
  | cons e es ih =>
    rw [run_cons] at h
    cases hstep : step sectors adcCount e s with
    | running s₁ =>
      rw [hstep] at h
      dsimp only at h
      have h₁ : s₁.logTime = (s.logTime + LOG_INTERVAL_USEC) % 2^32 :=
        step_logTime sectors adcCount e s s₁ (Or.inl hstep)
      have h₂ := ih s₁ (by rw [h₁]; exact Nat.mod_lt _ (by norm_num)) h
      rw [h₂, h₁, Nat.mod_add_mod, List.length_cons]
      congr 1
      ring
    | fatal msg =>
      rw [hstep] at h
      dsimp only at h
      exact absurd h (by simp)
    | stopped s₁ =>
      rw [hstep] at h
      dsimp only at h
      exact absurd h (by simp)

theorem bufferContents_length (sectors adcCount : Nat) (s : State) :
    (bufferContents sectors adcCount s).length = s.fifoCount := by
  unfold bufferContents
  rw [List.length_map, List.length_range]

/-! ### C2: ring-buffer bookkeeping invariants -/

/-- C2: every reachable state of the `logData` loop keeps
`fifoCount ≤ FIFO_DIM`, `fifoHead` and `fifoTail` in `[0, FIFO_DIM)`,
`fifoCount = 0` exactly when the buffer holds no records, and
`fifoCount = FIFO_DIM` exactly when it is full; and within an
iteration the write phase pops at most the buffered records, so the
count never goes negative (the size_t subtraction at line 340 cannot
underflow). -/
theorem ring_invariant (sectors adcCount : Nat) (s : State) (env : Env)
    (s₁ : State) (hD : 0 < FIFO_DIM sectors adcCount)
    (hs : Reachable sectors adcCount s) :
    s.fifoCount ≤ FIFO_DIM sectors adcCount ∧
    s.fifoHead < FIFO_DIM sectors adcCount ∧
    s.fifoTail < FIFO_DIM sectors adcCount ∧
    (s.fifoCount = 0 ↔ bufferContents sectors adcCount s = []) ∧
    (s.fifoCount = FIFO_DIM sectors adcCount ↔
      (bufferContents sectors adcCount s).length = FIFO_DIM sectors adcCount) ∧
    (pushPhase sectors adcCount env s = .ok s₁ →
      nwOf sectors adcCount s₁ ≤ s₁.fifoCount) := by
  obtain ⟨hc, hh, ht, hrel, hlen, hov⟩ := inv_reachable sectors adcCount s hD hs
  refine ⟨hc, hh, ht, ?_, ?_, ?_⟩
  · rw [← List.length_eq_zero, bufferContents_length]
  · rw [bufferContents_length]
  · intro hpush
    obtain ⟨⟨hc₁, hh₁, ht₁, hrel₁, hlen₁, hov₁⟩, hcnt₁⟩ :=
      inv_push sectors adcCount env s s₁ ⟨hc, hh, ht, hrel, hlen, hov⟩ hpush
    exact (nw_le sectors adcCount s₁ hc₁ hh₁ ht₁ hrel₁ hcnt₁).1

/-! ### C3: bounded, wrap-free writes -/

/-- C3: in an iteration with the storage writer idle, the write run
`nw` computed after the push never passes the physical end of the
FIFO array, never exceeds 512 bytes, and popping it leaves exactly
the remaining records buffered for a later opportunity. -/
theorem bounded_write (sectors adcCount : Nat) (s : State) (env : Env)
    (s₁ s₂ : State) (hD : 0 < FIFO_DIM sectors adcCount)
    (hs : Reachable sectors adcCount s) ( _hbusy : env.sdBusy = false)
    (hpush : pushPhase sectors adcCount env s = .ok s₁) :
    s₁.fifoTail + nwOf sectors adcCount s₁ ≤ FIFO_DIM sectors adcCount ∧
    nwOf sectors adcCount s₁ * recSize adcCount ≤ 512 ∧
    (writePhase sectors adcCount env s₁ = .ok s₂ →
      s₂.fifoCount + nwOf sectors adcCount s₁ = s₁.fifoCount) := by
  obtain ⟨⟨hc₁, hh₁, ht₁, hrel₁, hlen₁, hov₁⟩, hcnt₁⟩ :=
    inv_push sectors adcCount env s s₁
      (inv_reachable sectors adcCount s hD hs) hpush
  obtain ⟨hnw, htail⟩ := nw_le sectors adcCount s₁ hc₁ hh₁ ht₁ hrel₁ hcnt₁
  refine ⟨htail, ?_, ?_⟩
  · have hmw : nwOf sectors adcCount s₁ ≤ MAX_WRITE adcCount := by
      unfold nwOf
      dsimp only
      split <;> split <;> omega
    calc nwOf sectors adcCount s₁ * recSize adcCount
        ≤ MAX_WRITE adcCount * recSize adcCount :=
          Nat.mul_le_mul_right _ hmw
      _ ≤ 512 := Nat.div_mul_le_self 512 (recSize adcCount)
  · intro hw
    obtain ⟨-, -, -, hcnt⟩ := writePhase_preserves sectors adcCount env s₁ s₂
      hw
    omega

theorem pushPhase_error_msg (sectors adcCount : Nat) (env : Env)
    (s : State) (msg : String)
    (hp : pushPhase sectors adcCount env s = .error msg) :
    msg = "too many overruns" := by
  unfold pushPhase at hp
  dsimp only at hp
  by_cases hlt : s.fifoCount < FIFO_DIM sectors adcCount
  · rw [if_pos hlt] at hp
    exact absurd hp (by simp)
  · rw [if_neg hlt] at hp
    by_cases hceil : (s.overrun + 1) % 2^16 > 0xFFF
    · rw [if_pos hceil] at hp
      simp only [Except.error.injEq] at hp
      exact hp.symm
    · rw [if_neg hceil] at hp
      exact absurd hp (by simp)

theorem writePhase_error_msg (sectors adcCount : Nat) (env : Env)
    (s : State) (msg : String)
    (hw : writePhase sectors adcCount env s = .error msg) :
    msg = "write binFile failed" := by
  unfold writePhase at hw
  dsimp only at hw
  by_cases hb : env.bytesWritten ≠ nwOf sectors adcCount s * recSize adcCount
  · rw [if_pos hb] at hw
    simp only [Except.error.injEq] at hw
    exact hw.symm
  · rw [if_neg hb] at hw
    exact absurd hw (by simp)

/-! ### C4: drift-free deadline arithmetic -/

/-- C4: after any `K` completed iterations the due time equals the
initial `micros()` reading plus `K` fixed intervals in 32-bit modular
arithmetic, for every environment sequence — the due time is advanced
only by adding the interval to its predecessor, never from the
clock. -/
theorem deadline_no_drift (sectors adcCount : Nat) (micros0 : Nat)
    (initData : List (List Nat)) (envs : List Env) (s : State)
    (h : run sectors adcCount (initState micros0 initData) envs
      = .running s) :
    s.logTime = (micros0 + envs.length * LOG_INTERVAL_USEC) % 2^32 := by
  have hlt : (initState micros0 initData).logTime < 2^32 :=
    Nat.mod_lt _ (by norm_num)
  have hrun := run_logTime sectors adcCount _ s envs hlt h
  have hinit : (initState micros0 initData).logTime = micros0 % 2^32 := rfl
  rw [hrun, hinit, Nat.mod_add_mod]

/-- C4 witness: two busy iterations from clock 0 end with
`logTime = 4000`. -/
theorem deadline_no_drift_witness :
    run 1 4 (initState 0 fifoZero) [envBusy1, envBusy2]
      = .running stateT2 ∧
    stateT2.logTime
      = (0 + [envBusy1, envBusy2].length * LOG_INTERVAL_USEC) % 2^32 :=
  ⟨by decide,
    deadline_no_drift 1 4 0 fifoZero [envBusy1, envBusy2] stateT2 (by decide)⟩

/-! ### C5: full-buffer push refusal is frameless -/

/-- C5: when the buffer is full the push phase either halts the
session on saturation or changes nothing but the two overrun
counters: head, tail, count, every buffered record, and all other
statistics keep their values. -/
theorem full_push_frame (sectors adcCount : Nat) (env : Env) (s : State)
    (hfull : s.fifoCount = FIFO_DIM sectors adcCount) :
    pushPhase sectors adcCount env s = .error "too many overruns" ∨
    pushPhase sectors adcCount env s = .ok { s with
      totalOverrun := (s.totalOverrun + 1) % 2^32,
      overrun := (s.overrun + 1) % 2^16 } := by
  rw [pushPhase_full sectors adcCount env s hfull]
  by_cases hceil : (s.overrun + 1) % 2^16 > 0xFFF
  · left
    rw [if_pos hceil]
  · right
    rw [if_neg hceil]

/-- C5 witness: a concrete full buffer with streak 0. -/
theorem full_push_frame_witness :
    stateFull.fifoCount = FIFO_DIM 1 4 ∧
    (pushPhase 1 4 envBusy1 stateFull = .error "too many overruns" ∨
      pushPhase 1 4 envBusy1 stateFull = .ok { stateFull with
        totalOverrun := (stateFull.totalOverrun + 1) % 2^32,
        overrun := (stateFull.overrun + 1) % 2^16 }) :=
  ⟨by decide, full_push_frame 1 4 envBusy1 stateFull (by decide)⟩

/-! ### C8: overrun saturation is fatal -/

/-- C8: on a full buffer, a pending streak that exceeds the hard
ceiling 0xFFF after this iteration's increment halts the session with
the "too many overruns" diagnostic and the run processes none of the
remaining iterations; a streak at or below the ceiling only advances
the counters and logging continues. -/
theorem overrun_saturation (sectors adcCount : Nat) (env : Env) (s : State)
    (rest : List Env) (hfull : s.fifoCount = FIFO_DIM sectors adcCount) :
    (0xFFF < (s.overrun + 1) % 2^16 →
      pushPhase sectors adcCount env s = .error "too many overruns" ∧
      (deadlineDelta env s ≤ 0 →
        step sectors adcCount env s = .fatal "too many overruns" ∧
        run sectors adcCount s (env :: rest) = .fatal "too many overruns")) ∧
    ((s.overrun + 1) % 2^16 ≤ 0xFFF →
      pushPhase sectors adcCount env s = .ok { s with
        totalOverrun := (s.totalOverrun + 1) % 2^32,
        overrun := (s.overrun + 1) % 2^16 }) := by
  constructor
  · intro hsat
    have hpe : pushPhase sectors adcCount env s
        = .error "too many overruns" := by
      rw [pushPhase_full sectors adcCount env s hfull, if_pos hsat]
    refine ⟨hpe, fun hmiss => ?_⟩
    have htick := tick_of_le env s hmiss
    have hstep : step sectors adcCount env s = .fatal "too many overruns" :=
      step_of_push_error sectors adcCount env s _ _ htick
        (by rw [pushPhase_full sectors adcCount env { s with
            logTime := (s.logTime + LOG_INTERVAL_USEC) % 2^32,
            lastDelta := if deadlineDelta env s = 0 then deadlineDelta env s
              else ((env.fireDelta % 2^31 : Nat) : Int) } hfull,
          if_pos hsat])
    refine ⟨hstep, ?_⟩
    rw [run_cons, hstep]
  · intro hok
    rw [pushPhase_full sectors adcCount env s hfull, if_neg (by omega)]

/-- C8 witness: a full buffer with the streak at the ceiling. -/
theorem overrun_saturation_witness :
    stateSat.fifoCount = FIFO_DIM 1 4 ∧
    ((0xFFF < (stateSat.overrun + 1) % 2^16 →
      pushPhase 1 4 envBusy1 stateSat = .error "too many overruns" ∧
      (deadlineDelta envBusy1 stateSat ≤ 0 →
        step 1 4 envBusy1 stateSat = .fatal "too many overruns" ∧
        run 1 4 stateSat [envBusy1] = .fatal "too many overruns")) ∧
    ((stateSat.overrun + 1) % 2^16 ≤ 0xFFF →
      pushPhase 1 4 envBusy1 stateSat = .ok { stateSat with
        totalOverrun := (stateSat.totalOverrun + 1) % 2^32,
        overrun := (stateSat.overrun + 1) % 2^16 })) :=
  ⟨by decide, overrun_saturation 1 4 envBusy1 stateSat [] (by decide)⟩

/-! ### C9: missed deadlines are fatal; otherwise the wait completes -/

/-- C9: if the clock already passed the newly advanced due time
(`delta > 0` before the busy-wait), the iteration halts the session
with the "Rate too fast" diagnostic and the run goes no further;
otherwise the session never fails with that diagnostic in this
iteration and the loop proceeds only once the recorded wait delta is
nonnegative (the due time has been reached). -/
theorem rate_too_fast (sectors adcCount : Nat) (env : Env) (s : State)
    (rest : List Env) :
    (0 < deadlineDelta env s →
      step sectors adcCount env s = .fatal "Rate too fast" ∧
      run sectors adcCount s (env :: rest) = .fatal "Rate too fast") ∧
    (deadlineDelta env s ≤ 0 →
      step sectors adcCount env s ≠ .fatal "Rate too fast" ∧
      0 ≤ (outLastDelta (step sectors adcCount env s)).getD 0) := by
  constructor
  · intro hmiss
    have hstep := step_of_tick_error sectors adcCount env s _
      (tick_of_miss env s hmiss)
    exact ⟨hstep, by rw [run_cons, hstep]⟩
  · intro hle
    have htick := tick_of_le env s hle
    obtain ⟨s₀, hs₀⟩ : ∃ s₀, tick env s = .ok s₀ := ⟨_, htick⟩
    have hld₀ : 0 ≤ s₀.lastDelta := by
      obtain ⟨heq, -⟩ := tick_ok env s s₀ hs₀
      rw [heq]
      dsimp only
      split
      · omega
      · exact Int.natCast_nonneg _
    cases hpush : pushPhase sectors adcCount env s₀ with
    | error msg =>
      have hmsg := pushPhase_error_msg sectors adcCount env s₀ msg hpush
      have hstep := step_of_push_error sectors adcCount env s s₀ msg hs₀ hpush
      subst hmsg
      constructor
      · rw [hstep]
        intro hcontra
        injection hcontra with hcontra
        exact absurd hcontra (by decide)
      · rw [hstep]
        simp [outLastDelta]
    | ok s₁ =>
      obtain ⟨-, -, hld₁⟩ := pushPhase_preserves sectors adcCount env s₀ s₁
        hpush
      by_cases hbusy : env.sdBusy
      · have hstep := step_busy sectors adcCount env s s₀ s₁ hs₀ hpush hbusy
        constructor
        · rw [hstep]
          simp
        · rw [hstep]
          simp only [outLastDelta, Option.getD_some]
          rw [show ({ s₁ with maxDelta := if s₁.lastDelta > s₁.maxDelta
            then s₁.lastDelta else s₁.maxDelta } : State).lastDelta
            = s₁.lastDelta from rfl, hld₁]
          exact hld₀
      · rw [Bool.not_eq_true] at hbusy
        cases hwrite : writePhase sectors adcCount env { s₁ with
            maxDelta := if s₁.lastDelta > s₁.maxDelta then s₁.lastDelta
              else s₁.maxDelta } with
        | error msg =>
          have hmsg := writePhase_error_msg sectors adcCount env _ msg hwrite
          have hstep := step_of_write_error sectors adcCount env s s₀ s₁ msg
            hs₀ hpush hbusy hwrite
          subst hmsg
          constructor
          · rw [hstep]
            intro hcontra
            injection hcontra with hcontra
            exact absurd hcontra (by decide)
          · rw [hstep]
            simp [outLastDelta]
        | ok s₃ =>
          obtain ⟨-, -, hld₃, -⟩ := writePhase_preserves sectors adcCount env
            _ s₃ hwrite
          have hstep := step_idle sectors adcCount env s s₀ s₁ s₃ hs₀ hpush
            hbusy hwrite
          have hld₄ : 0 ≤ ({ s₃ with polls := s₃.polls + 1 } : State).lastDelta := by
            rw [show ({ s₃ with polls := s₃.polls + 1 } : State).lastDelta
              = s₃.lastDelta from rfl, hld₃]
            rw [show ({ s₁ with maxDelta := if s₁.lastDelta > s₁.maxDelta
              then s₁.lastDelta else s₁.maxDelta } : State).lastDelta
              = s₁.lastDelta from rfl, hld₁]
            exact hld₀
          by_cases hser : env.serialAvailable
          · rw [if_pos hser] at hstep
            constructor
            · rw [hstep]
              simp
            · rw [hstep]
              simpa only [outLastDelta, Option.getD_some] using hld₄
          · rw [if_neg hser] at hstep
            constructor
            · rw [hstep]
              simp
            · rw [hstep]
              simpa only [outLastDelta, Option.getD_some] using hld₄

/-! ### C7: the stop poll sits inside the idle-writer branch -/

/-- C7 counterexample: in an iteration whose environment reports the
SD busy and the stop signal set, the loop neither polls the stop
signal (the poll count is unchanged, not incremented once) nor exits:
the iteration ends `running`.  The claim that the signal is polled
exactly once per iteration and a set signal always ends the loop is
false. -/
theorem stop_poll_cex :
    envBusyStop.serialAvailable = true ∧
    isStopped (step 1 4 envBusyStop state0) = false ∧
    outPolls (step 1 4 envBusyStop state0) = some state0.polls := by
  decide

/-- C7 (amended): the stop signal is polled only in iterations in
which the storage writer is idle — there, exactly once, after the
write completes, and a set signal ends the loop with that iteration;
in an iteration with the writer busy the signal is not polled and the
loop never stops, whatever the signal's value. -/
theorem stop_poll_only_when_idle (sectors adcCount : Nat) (env : Env)
    (s : State) :
    (env.sdBusy = true →
      isStopped (step sectors adcCount env s) = false ∧
      (outPolls (step sectors adcCount env s) = none ∨
        outPolls (step sectors adcCount env s) = some s.polls)) ∧
    (env.sdBusy = false →
      (outPolls (step sectors adcCount env s) = none ∨
        outPolls (step sectors adcCount env s) = some (s.polls + 1)) ∧
      (env.serialAvailable = true →
        isStopped (step sectors adcCount env s) = true ∨
        outPolls (step sectors adcCount env s) = none)) := by
  cases htick : tick env s with
  | error msg =>
    have hstep := step_of_tick_error sectors adcCount env s msg htick
    rw [hstep]
    exact ⟨fun _ => ⟨rfl, Or.inl rfl⟩, fun _ => ⟨Or.inl rfl, fun _ => Or.inr rfl⟩⟩
  | ok s₀ =>
    have hp₀ : s₀.polls = s.polls := by
      obtain ⟨heq, -⟩ := tick_ok env s s₀ htick
      rw [heq]
    cases hpush : pushPhase sectors adcCount env s₀ with
    | error msg =>
      have hstep := step_of_push_error sectors adcCount env s s₀ msg htick
        hpush
      rw [hstep]
      exact ⟨fun _ => ⟨rfl, Or.inl rfl⟩,
        fun _ => ⟨Or.inl rfl, fun _ => Or.inr rfl⟩⟩
    | ok s₁ =>
      obtain ⟨hp₁, -, -⟩ := pushPhase_preserves sectors adcCount env s₀ s₁
        hpush
      by_cases hbusy : env.sdBusy
      · have hstep := step_busy sectors adcCount env s s₀ s₁ htick hpush hbusy
        rw [hstep]
        constructor
        · intro _
          refine ⟨rfl, Or.inr ?_⟩
          rw [show outPolls (.running { s₁ with
            maxDelta := if s₁.lastDelta > s₁.maxDelta then s₁.lastDelta
              else s₁.maxDelta }) = some s₁.polls from rfl, hp₁, hp₀]
        · intro hcontra
          rw [hbusy] at hcontra
          exact absurd hcontra (by simp)
      · rw [Bool.not_eq_true] at hbusy
        cases hwrite : writePhase sectors adcCount env { s₁ with
            maxDelta := if s₁.lastDelta > s₁.maxDelta then s₁.lastDelta
              else s₁.maxDelta } with
        | error msg =>
          have hstep := step_of_write_error sectors adcCount env s s₀ s₁ msg
            htick hpush hbusy hwrite
          rw [hstep]
          exact ⟨fun _ => ⟨rfl, Or.inl rfl⟩,
            fun _ => ⟨Or.inl rfl, fun _ => Or.inr rfl⟩⟩
        | ok s₃ =>
          obtain ⟨hp₃, -, -, -⟩ := writePhase_preserves sectors adcCount env
            _ s₃ hwrite
          have hstep := step_idle sectors adcCount env s s₀ s₁ s₃ htick hpush
            hbusy hwrite
          have hp₄ : s₃.polls + 1 = s.polls + 1 := by
            rw [hp₃, show ({ s₁ with maxDelta := if s₁.lastDelta > s₁.maxDelta
              then s₁.lastDelta else s₁.maxDelta } : State).polls
              = s₁.polls from rfl, hp₁, hp₀]
          constructor
          · intro hcontra
            rw [hbusy] at hcontra
            exact absurd hcontra (by simp)
          · intro _
            by_cases hser : env.serialAvailable
            · rw [if_pos hser] at hstep
              rw [hstep]
              refine ⟨Or.inr ?_, fun _ => Or.inl rfl⟩
              rw [show outPolls (.stopped { s₃ with polls := s₃.polls + 1 })
                = some (s₃.polls + 1) from rfl, hp₄]
            · rw [if_neg hser] at hstep
              rw [hstep]
              refine ⟨Or.inr ?_, fun hser2 => absurd hser2 hser⟩
              rw [show outPolls (.running { s₃ with polls := s₃.polls + 1 })
                = some (s₃.polls + 1) from rfl, hp₄]

/-! ### Witnesses for C2 and C3 -/

/-- C2 witness: the invariant conjunction at the reachable initial
state of the concrete instance. -/
theorem ring_invariant_witness :
    0 < FIFO_DIM 1 4 ∧ Reachable 1 4 state0 ∧
    (state0.fifoCount ≤ FIFO_DIM 1 4 ∧
    state0.fifoHead < FIFO_DIM 1 4 ∧
    state0.fifoTail < FIFO_DIM 1 4 ∧
    (state0.fifoCount = 0 ↔ bufferContents 1 4 state0 = []) ∧
    (state0.fifoCount = FIFO_DIM 1 4 ↔
      (bufferContents 1 4 state0).length = FIFO_DIM 1 4) ∧
    (pushPhase 1 4 envIdle state0 = .ok stateP1 →
      nwOf 1 4 stateP1 ≤ stateP1.fifoCount)) :=
  ⟨by decide, ⟨0, fifoZero, [], by decide, by decide, rfl⟩,
    ring_invariant 1 4 state0 envIdle stateP1 (by decide)
      ⟨0, fifoZero, [], by decide, by decide, rfl⟩⟩

/-- C3 witness: one pushed record, writer idle, 8-byte write. -/
theorem bounded_write_witness :
    0 < FIFO_DIM 1 4 ∧ Reachable 1 4 state0 ∧ envIdle.sdBusy = false ∧
    pushPhase 1 4 envIdle state0 = .ok stateP1 ∧
    (stateP1.fifoTail + nwOf 1 4 stateP1 ≤ FIFO_DIM 1 4 ∧
    nwOf 1 4 stateP1 * recSize 4 ≤ 512 ∧
    (writePhase 1 4 envIdle stateP1 = .ok stateW1 →
      stateW1.fifoCount + nwOf 1 4 stateP1 = stateP1.fifoCount)) :=
  ⟨by decide, ⟨0, fifoZero, [], by decide, by decide, rfl⟩, by decide,
    rfl,
    bounded_write 1 4 state0 envIdle stateP1 stateW1 (by decide)
      ⟨0, fifoZero, [], by decide, by decide, rfl⟩ (by decide) rfl⟩

end ExFatLogger
